import Mathlib

/-!
Verification development for the fundedlist repository.

Shallow embedding of the classification, deduplication, ranking and
job-generation logic of `src/scraper_v2.py`, `src/job_scraper.py` and the
spec's ranker component, together with theorems settling the behavioural
claims about them.

Python's `needle in haystack` substring test is embedded as `pyIn`,
`str.lower()` as `pyLower` (ASCII case-folding; all keyword tables and
concrete inputs here are ASCII, where the two coincide).
-/

/-- Boolean list-prefix test: `pfxB a b` holds when `a` is an initial
segment of `b` (the list analogue of string prefix matching). -/
def pfxB : List Char → List Char → Bool
  | [], _ => true
  | _ :: _, [] => false
  | a :: as, b :: bs => a == b && pfxB as bs

/-- Boolean substring test on character lists, the semantics of Python's
`needle in haystack`: some suffix of the haystack starts with the needle. -/
def subB : List Char → List Char → Bool
  | n, [] => n.isEmpty
  | n, h :: t => pfxB n (h :: t) || subB n t

/-- Embedding of Python `str.lower()` (ASCII case-folding). -/
def pyLower (s : String) : String := ⟨s.data.map Char.toLower⟩

/-- Embedding of Python `needle in haystack` on strings. -/
def pyIn (needle haystack : String) : Bool := subB needle.data haystack.data


/-! ## Classifiers (`src/scraper_v2.py` and `src/job_scraper.py`) -/

/-- Keyword list of the `ai` row of the category table in
`categorize_company` (`src/scraper_v2.py`). -/
def ai_kws : List String :=
  ["ai", "artificial intelligence", "machine learning", "ml", "llm", "gpt",
   "neural", "deep learning"]

/-- Keyword list of the `fintech` row of the category table. -/
def fintech_kws : List String :=
  ["fintech", "payment", "banking", "financial", "crypto", "blockchain",
   "defi", "lending"]

/-- Keyword list of the `health` row of the category table. -/
def health_kws : List String :=
  ["health", "medical", "biotech", "pharma", "clinical", "patient",
   "healthcare", "drug"]

/-- Keyword list of the `climate` row of the category table. -/
def climate_kws : List String :=
  ["climate", "energy", "solar", "wind", "carbon", "sustainable", "green",
   "ev", "battery"]

/-- Keyword list of the `dev-tools` row of the category table. -/
def devtools_kws : List String :=
  ["developer", "devops", "api", "infrastructure", "cloud", "security",
   "software", "saas"]

/-- The ordered category table of `categorize_company`
(`src/scraper_v2.py` lines 99-105); Python dicts iterate in insertion
order, so the embedding is an ordered association list. -/
def categories : List (String × List String) :=
  [("ai", ai_kws), ("fintech", fintech_kws), ("health", health_kws),
   ("climate", climate_kws), ("dev-tools", devtools_kws)]

/-- One row of the loop body of `categorize_company`:
`any(kw in text_lower for kw in keywords)`. `tl` is the already-lowered
text. -/
def catMatches (p : String × List String) (tl : String) : Bool :=
  p.2.any (fun kw => pyIn kw tl)

/-- Embedding of `categorize_company` (`src/scraper_v2.py` lines 95-111):
lower-case the text, return the first category in table order whose
keyword list has a substring match, defaulting to `"other"`. -/
def categorize_company (text : String) : String :=
  match categories.find? (fun p => catMatches p (pyLower text)) with
  | some p => p.1
  | none => "other"


/-- Engineering keyword list of `categorize_department`
(`src/job_scraper.py` lines 116-133). -/
def eng_kws : List String :=
  ["engineer", "developer", "swe", "devops", "sre", "architect",
   "data scientist"]

/-- Product keyword list of `categorize_department`. -/
def product_kws : List String :=
  ["product manager", "pm", "product lead", "product owner"]

/-- Design keyword list of `categorize_department`. -/
def design_kws : List String := ["design", "ux", "ui", "creative"]

/-- Sales keyword list of `categorize_department`. -/
def sales_kws : List String :=
  ["sales", "account", "business development", "bd", "gtm", "revenue"]

/-- Marketing keyword list of `categorize_department`; the source maps
this branch to the `sales` label as well. -/
def marketing_kws : List String :=
  ["marketing", "growth", "content", "brand", "communications"]

/-- Operations keyword list of `categorize_department`. -/
def ops_kws : List String :=
  ["operations", "ops", "finance", "hr", "people", "legal", "admin"]

/-- Helper for the `any(kw in title_lower for kw in [...])` tests of
`categorize_department`; `tl` is the already-lowered title. -/
def anyIn (kws : List String) (tl : String) : Bool :=
  kws.any (fun kw => pyIn kw tl)

/-- Embedding of `categorize_department` (`src/job_scraper.py` lines
116-133): an if/elif chain over keyword lists, with default
`"engineering"`; the marketing branch returns `"sales"` as in the source. -/
def categorize_department (title : String) : String :=
  if anyIn eng_kws (pyLower title) then "engineering"
  else if anyIn product_kws (pyLower title) then "product"
  else if anyIn design_kws (pyLower title) then "design"
  else if anyIn sales_kws (pyLower title) then "sales"
  else if anyIn marketing_kws (pyLower title) then "sales"
  else if anyIn ops_kws (pyLower title) then "operations"
  else "engineering"


/-- The ordered round-type list of `parse_round_type`
(`src/scraper_v2.py` line 85). -/
def rounds : List String :=
  ["Seed", "Pre-Seed", "Series A", "Series B", "Series C", "Series D",
   "Series E", "Series F", "Growth", "IPO"]

/-- Embedding of `parse_round_type` (`src/scraper_v2.py` lines 83-92):
return the first round whose lowered name occurs in the lowered text,
defaulting to `"Funding"`. -/
def parse_round_type (text : String) : String :=
  match rounds.find? (fun r => pyIn (pyLower r) (pyLower text)) with
  | some r => r
  | none => "Funding"


/-! ## Deduplication and output phase of `main` (`src/scraper_v2.py`) -/

/-- A scraped company record as built by `scrape_rss_feeds` /
`scrape_startups_gallery` (`src/scraper_v2.py`): the keys every record
carries; `link`/`published` are present only on RSS records. -/
structure ScrapedCompany where
  name : String
  amount : String
  round : String
  tagline : String
  category : String
  source : String
  link : Option String := none
  published : Option String := none
deriving DecidableEq, Repr

/-- The dedup key of `main` (`src/scraper_v2.py` line 250):
`company['name'].lower()` — case-folding only. -/
def nameKey (c : ScrapedCompany) : String := pyLower c.name

/-- The dedup loop of `main` (`src/scraper_v2.py` lines 246-253) with the
`seen` set made explicit: keep a record when its lowered name has not been
seen, otherwise drop it. -/
def dedupAux (seen : List String) : List ScrapedCompany → List ScrapedCompany
  | [] => []
  | c :: cs =>
    if nameKey c ∈ seen then dedupAux seen cs
    else c :: dedupAux (nameKey c :: seen) cs

/-- The deduplication pass of `main`, starting from an empty `seen` set. -/
def dedup_by_name (cs : List ScrapedCompany) : List ScrapedCompany :=
  dedupAux [] cs

/-- The externally visible outputs of a scraping run: the rows of the
`funding` table (appended to by `save_to_database`) and the contents of
`data/companies.json` (replaced by `export_to_json`). -/
structure OutputState where
  db : List ScrapedCompany
  json : Option (List ScrapedCompany)
deriving DecidableEq

/-- Effect of `save_to_database` (`src/scraper_v2.py` lines 197-218) on
the output state: the companies are inserted (appended) into the funding
table. -/
def save_to_database (cs : List ScrapedCompany) (st : OutputState) : OutputState :=
  { st with db := st.db ++ cs }

/-- Effect of `export_to_json` (`src/scraper_v2.py` lines 221-235) on the
output state: the JSON file is overwritten with the given companies. -/
def export_to_json (cs : List ScrapedCompany) (st : OutputState) : OutputState :=
  { st with json := some cs }

/-- The output phase of `main` (`src/scraper_v2.py` lines 255-262):
`if unique_companies:` (Python truthiness = non-empty) run
`save_to_database` then `export_to_json`; otherwise do nothing. -/
def main_outputs (unique : List ScrapedCompany) (st : OutputState) : OutputState :=
  if unique.isEmpty then st
  else export_to_json unique (save_to_database unique st)

/-! ## Ranker (spec §4.2; no implementation exists under `src/`) -/

/-- Modelled from the spec: a candidate company record with the
heterogeneous optional signals the ranker of spec §4.2 consumes (the
repository contains no ranker implementation, only the spec's contract). -/
structure Candidate where
  name : Option String
  status : Option String
  isHiring : Bool
  isTop : Bool
  teamSize : Option Nat
  stage : Option String
  batchYear : Option Nat
deriving DecidableEq, Repr

/-- Modelled from the spec: the hard filter of §4.2 — records with an
explicit dead/inactive/acquired status or a missing name are excluded
before scoring. Returns `true` when the record is eligible. -/
def hardFilter (c : Candidate) : Bool :=
  c.name.isSome &&
    (match c.status with
     | some s => !(["dead", "inactive", "acquired"].contains (pyLower s))
     | none => true)

/-- Modelled from the spec: the additive scoring rule of §4.2 — hiring
+20, top-company +10, team-size tiers (≥100 → +5, ≥20 → +3, ≥5 → +1),
stage containing "series" or "growth" +5, recency signal (two-digit batch
year) ≥ 24 → +3, ≥ 22 → +1 (thresholds are the spec's "recent" and
"moderately recent", instantiated as documented constants). -/
def score (c : Candidate) : Nat :=
  (if c.isHiring then 20 else 0) +
  (if c.isTop then 10 else 0) +
  (match c.teamSize with
   | some n => if n ≥ 100 then 5 else if n ≥ 20 then 3 else if n ≥ 5 then 1 else 0
   | none => 0) +
  (match c.stage with
   | some s => if pyIn "series" (pyLower s) || pyIn "growth" (pyLower s) then 5 else 0
   | none => 0) +
  (match c.batchYear with
   | some y => if y ≥ 24 then 3 else if y ≥ 22 then 1 else 0
   | none => 0)

/-- Modelled from the spec: stable insertion for a descending-by-score
sort — an element is placed before the first already-sorted element whose
score does not exceed its own, so earlier input elements precede later
ones among equal scores. -/
def insertDesc (x : Candidate) : List Candidate → List Candidate
  | [] => [x]
  | y :: ys => if score y ≤ score x then x :: y :: ys else y :: insertDesc x ys

/-- Modelled from the spec: stable sort by descending score (insertion
sort, folded from the right so input order is kept among ties). -/
def sortDesc (l : List Candidate) : List Candidate := l.foldr insertDesc []

/-- Modelled from the spec: the ranker of §4.2 — hard-filter, stable-sort
by descending score, take the first `limit` records. -/
def rank (limit : Nat) (cs : List Candidate) : List Candidate :=
  (sortDesc (cs.filter hardFilter)).take limit

/-! ## Job generator (`src/job_scraper.py`)

The source calls the global `random` module; per the spec's design note
("reimplement as an explicit pseudo-random source object passed into the
generator function, so determinism is a property of the call"), the
pseudo-random source is embedded as an explicit generator state threaded
through the computation. The concrete generator is a linear congruential
step; the claims proved below do not depend on which generator is used,
only on it being an explicit deterministic state. -/

/-- Explicit pseudo-random generator state (spec §9 design note: the
random source is passed by value, not global). -/
structure Rng where
  state : Nat
deriving DecidableEq, Repr

/-- One step of the pseudo-random source (a standard 31-bit linear
congruential update), returning a raw draw and the next state. -/
def rngNext (r : Rng) : Nat × Rng :=
  let s := (r.state * 1103515245 + 12345) % 2147483648
  (s, ⟨s⟩)

/-- Embedding of `random.randint(lo, hi)`: a draw in `[lo, hi]`
inclusive. -/
def randint (lo hi : Nat) (r : Rng) : Nat × Rng :=
  let p := rngNext r
  (lo + p.1 % (hi + 1 - lo), p.2)

/-- Embedding of `random.choice(l)`: pick an element of `l` by the next
draw (`d` is the fallback for an empty list; all lists used are
non-empty). -/
def choice {α : Type} (l : List α) (d : α) (r : Rng) : α × Rng :=
  let p := rngNext r
  (l.getD (p.1 % l.length) d, p.2)

/-- A company record as consumed by `generate_sample_jobs`
(`src/job_scraper.py`): the function reads `id` and `website` via
`.get` (both may be absent); `isHiring` is the raw actively-hiring flag
of the spec's data model, which the source never reads. -/
structure JobCompany where
  id : Option String
  website : Option String
  isHiring : Bool
deriving DecidableEq, Repr

/-- A generated job record (`src/job_scraper.py` lines 170-178). -/
structure Job where
  id : Nat
  companyId : Option String
  title : String
  department : String
  location : String
  posted : String
  url : String
deriving DecidableEq, Repr

/-- The `sample_titles` table of `generate_sample_jobs`
(`src/job_scraper.py` lines 147-153), in dict insertion order. -/
def sample_titles : List (String × List String) :=
  [("engineering",
    ["Senior Software Engineer", "ML Engineer", "Backend Engineer",
     "Frontend Engineer", "DevOps Engineer", "Data Engineer"]),
   ("product", ["Product Manager", "Senior Product Manager", "Product Lead"]),
   ("design", ["Product Designer", "UX Designer", "Design Lead"]),
   ("sales",
    ["Account Executive", "Sales Development Rep", "Head of Sales",
     "Growth Marketing Manager"]),
   ("operations",
    ["Operations Manager", "Finance Manager", "HR Manager",
     "Executive Assistant"])]

/-- `list(sample_titles.keys())` of `generate_sample_jobs`. -/
def dept_keys : List String := sample_titles.map (fun p => p.1)

/-- `sample_titles[dept]` lookup of `generate_sample_jobs`. -/
def titlesFor (d : String) : List String :=
  match sample_titles.find? (fun p => p.1 == d) with
  | some p => p.2
  | none => []

/-- The `locations` list of `generate_sample_jobs`
(`src/job_scraper.py` line 155). -/
def job_locations : List String :=
  ["San Francisco, CA", "New York, NY", "Remote", "Austin, TX",
   "Seattle, WA", "Boston, MA"]

/-- The inner `for _ in range(num_jobs)` loop of `generate_sample_jobs`
(`src/job_scraper.py` lines 165-179): each iteration draws a department,
a title, a location and a days-ago count, builds the job dict and
increments the running job id. -/
def genLoop (c : JobCompany) : Nat → Nat → Rng → List Job × Nat × Rng
  | 0, jobId, r => ([], jobId, r)
  | k + 1, jobId, r =>
    let pd := choice dept_keys "engineering" r
    let pt := choice (titlesFor pd.1) "" pd.2
    let pl := choice job_locations "" pt.2
    let pn := randint 1 7 pl.2
    let job : Job :=
      { id := jobId, companyId := c.id, title := pt.1, department := pd.1,
        location := pl.1, posted := Nat.repr pn.1 ++ "d ago",
        url := c.website.getD "#" ++ "/careers" }
    let rest := genLoop c k (jobId + 1) pn.2
    (job :: rest.1, rest.2.1, rest.2.2)

/-- The per-company body of `generate_sample_jobs`
(`src/job_scraper.py` lines 160-179): `num_jobs = random.randint(2, 4)`
then the inner loop. -/
def companyJobs (c : JobCompany) (jobId : Nat) (r : Rng) : List Job × Nat × Rng :=
  let pk := randint 2 4 r
  genLoop c pk.1 jobId pk.2

/-- The `for company in companies` fold of `generate_sample_jobs`,
threading the job-id counter and the generator state. -/
def generate_go : List JobCompany → Nat → Rng → List Job × Nat × Rng
  | [], jobId, r => ([], jobId, r)
  | c :: cs, jobId, r =>
    let q := companyJobs c jobId r
    let rest := generate_go cs q.2.1 q.2.2
    (q.1 ++ rest.1, rest.2)

/-- Embedding of `generate_sample_jobs` (`src/job_scraper.py` lines
145-181): job ids start at 1; the pseudo-random source is the explicit
`r`. -/
def generate_sample_jobs (r : Rng) (cs : List JobCompany) : List Job :=
  (generate_go cs 1 r).1

/-! ## Concrete records and keyword unions used in statements below -/

/-- Union of all keyword lists of the company category table. -/
def all_company_kws : List String :=
  ai_kws ++ fintech_kws ++ health_kws ++ climate_kws ++ devtools_kws

/-- Holds when no company-category keyword occurs in the lowered text. -/
def noCompanyKw (t : String) : Bool :=
  all_company_kws.all (fun kw => !(pyIn kw (pyLower t)))

/-- Union of all keyword lists of the department classifier. -/
def all_dept_kws : List String :=
  eng_kws ++ product_kws ++ design_kws ++ sales_kws ++ marketing_kws ++ ops_kws

/-- Holds when no department keyword occurs in the lowered title. -/
def noDeptKw (u : String) : Bool :=
  all_dept_kws.all (fun kw => !(pyIn kw (pyLower u)))

/-- A concrete scraped record (first-seen spelling of the name). -/
def acme1 : ScrapedCompany :=
  { name := "Acme Inc", amount := "$5.0M", round := "Seed", tagline := "",
    category := "other", source := "rss" }

/-- A concrete scraped record whose name differs from `acme1` only by
case. -/
def acme2 : ScrapedCompany :=
  { name := "ACME INC", amount := "$5.0M", round := "Seed", tagline := "",
    category := "other", source := "gallery" }

/-- An empty initial output state (no database rows, no JSON file). -/
def st0 : OutputState := { db := [], json := none }

/-- A concrete eligible ranker candidate (the spec §8 end-to-end
example: hiring, team size 150, Series B, active). -/
def cAcme : Candidate :=
  { name := some "Acme", status := some "active", isHiring := true,
    isTop := false, teamSize := some 150, stage := some "Series B",
    batchYear := none }

/-- A concrete company for the job generator, flagged actively hiring. -/
def coHiring : JobCompany :=
  { id := some "acme", website := some "https://acme.example", isHiring := true }

/-- The same company as `coHiring` with the hiring flag cleared. -/
def coQuiet : JobCompany :=
  { id := some "acme", website := some "https://acme.example", isHiring := false }

/-! ## Helper lemmas on the string and list machinery -/

/-- Prefix is transitive. -/
theorem pfxB_trans : ∀ {a b c : List Char},
    pfxB a b = true → pfxB b c = true → pfxB a c = true
  | [], _, _, _, _ => rfl
  | _ :: _, [], _, h, _ => by simp [pfxB] at h
  | _ :: _, _ :: _, [], _, h2 => by simp [pfxB] at h2
  | x :: xs, y :: ys, z :: zs, h1, h2 => by
    simp only [pfxB, Bool.and_eq_true, beq_iff_eq] at h1 h2 ⊢
    exact ⟨h1.1.trans h2.1, pfxB_trans h1.2 h2.2⟩

/-- The empty list is a substring of anything. -/
theorem subB_nil (c : List Char) : subB [] c = true := by
  cases c <;> simp [subB, pfxB]

/-- A prefix is in particular a substring. -/
theorem pfxB_subB : ∀ {a b : List Char}, pfxB a b = true → subB a b = true
  | [], [], _ => rfl
  | _ :: _, [], h => by simp [pfxB] at h
  | a, _ :: _, h => by simp [subB, h]

/-- A substring of a prefix is a substring of the longer list. -/
theorem subB_pfx : ∀ {b : List Char} {a c : List Char},
    subB a b = true → pfxB b c = true → subB a c = true
  | [], a, c, h1, _ => by
    simp only [subB, List.isEmpty_iff] at h1
    subst h1
    exact subB_nil c
  | y :: ys, a, [], _, h2 => by simp [pfxB] at h2
  | y :: ys, a, z :: zs, h1, h2 => by
    simp only [pfxB, Bool.and_eq_true, beq_iff_eq] at h2
    simp only [subB, Bool.or_eq_true] at h1 ⊢
    cases h1 with
    | inl hp =>
      exact Or.inl (pfxB_trans hp (by
        simp only [pfxB, Bool.and_eq_true, beq_iff_eq]
        exact h2))
    | inr hs => exact Or.inr (subB_pfx hs h2.2)

/-- Substring is transitive. -/
theorem subB_trans : ∀ {c : List Char} {a b : List Char},
    subB a b = true → subB b c = true → subB a c = true
  | [], a, b, h1, h2 => by
    simp only [subB, List.isEmpty_iff] at h2
    subst h2
    exact h1
  | z :: zs, a, b, h1, h2 => by
    simp only [subB, Bool.or_eq_true] at h2 ⊢
    cases h2 with
    | inl hp =>
      have := subB_pfx h1 hp
      simp only [subB, Bool.or_eq_true] at this
      exact this
    | inr hs => exact Or.inr (subB_trans h1 hs)

/-- `find?` returns the element at the first index where the predicate
holds. -/
theorem find?_of_first {α : Type} (p : α → Bool) :
    ∀ (l : List α) (i : Nat) (hi : i < l.length),
      p (l.get ⟨i, hi⟩) = true →
      (∀ j (hj : j < i), p (l.get ⟨j, Nat.lt_trans hj hi⟩) = false) →
      l.find? p = some (l.get ⟨i, hi⟩)
  | [], i, hi, _, _ => absurd hi (by simp)
  | a :: as, 0, _, hp, _ => by
    simp only [List.get] at hp ⊢
    exact List.find?_cons_of_pos _ hp
  | a :: as, i + 1, hi, hp, hprev => by
    have h0 : p a = false := hprev 0 (Nat.succ_pos i)
    simp only [List.get] at hp ⊢
    rw [List.find?_cons_of_neg _ (by simp [h0])]
    exact find?_of_first p as i (Nat.lt_of_succ_lt_succ hi) hp
      (fun j hj => hprev (j + 1) (Nat.succ_lt_succ hj))

/-- The dedup loop output is a sublist of its input. -/
theorem dedupAux_sublist (cs : List ScrapedCompany) :
    ∀ seen, (dedupAux seen cs).Sublist cs := by
  induction cs with
  | nil => intro seen; simp [dedupAux]
  | cons c cs ih =>
    intro seen
    simp only [dedupAux]
    split
    · exact (ih seen).cons c
    · exact (ih _).cons₂ c

/-- Keys of records kept by the dedup loop were not in the `seen` set. -/
theorem dedupAux_not_seen :
    ∀ (cs : List ScrapedCompany) seen d, d ∈ dedupAux seen cs →
      nameKey d ∉ seen := by
  intro cs
  induction cs with
  | nil => intro seen d h; simp [dedupAux] at h
  | cons c cs ih =>
    intro seen d hd
    simp only [dedupAux] at hd
    split at hd
    · exact ih seen d hd
    · rename_i hns
      cases List.mem_cons.mp hd with
      | inl h => subst h; exact hns
      | inr h =>
        have hn := ih _ d h
        exact fun hmem => hn (List.mem_cons_of_mem _ hmem)

/-- The dedup loop output has pairwise distinct lowered names. -/
theorem dedupAux_pairwise (cs : List ScrapedCompany) :
    ∀ seen, (dedupAux seen cs).Pairwise (fun a b => nameKey a ≠ nameKey b) := by
  induction cs with
  | nil => intro seen; simp [dedupAux]
  | cons c cs ih =>
    intro seen
    simp only [dedupAux]
    split
    · exact ih seen
    · refine List.Pairwise.cons ?_ (ih _)
      intro b hb
      have hn := dedupAux_not_seen cs (nameKey c :: seen) b hb
      intro he
      exact hn (he ▸ List.mem_cons_self _ _)

/-- Every input key is either already seen or represented in the dedup
loop output. -/
theorem dedupAux_covers :
    ∀ (cs : List ScrapedCompany) seen c, c ∈ cs →
      nameKey c ∈ seen ∨ ∃ d ∈ dedupAux seen cs, nameKey d = nameKey c := by
  intro cs
  induction cs with
  | nil => intro seen c h; cases h
  | cons a cs ih =>
    intro seen c hc
    simp only [dedupAux]
    by_cases ha : nameKey a ∈ seen
    · rw [if_pos ha]
      cases List.mem_cons.mp hc with
      | inl h => subst h; exact Or.inl ha
      | inr h => exact ih seen c h
    · rw [if_neg ha]
      cases List.mem_cons.mp hc with
      | inl h => exact Or.inr ⟨a, List.mem_cons_self _ _, (congrArg nameKey h).symm⟩
      | inr h =>
        cases ih (nameKey a :: seen) c h with
        | inl hin =>
          cases List.mem_cons.mp hin with
          | inl he => exact Or.inr ⟨a, List.mem_cons_self _ _, he.symm⟩
          | inr hs => exact Or.inl hs
        | inr hex =>
          rcases hex with ⟨d, hd, he⟩
          exact Or.inr ⟨d, List.mem_cons_of_mem _ hd, he⟩

/-- Every record kept by the dedup loop is the first input record with
its lowered name. -/
theorem dedupAux_first :
    ∀ (cs : List ScrapedCompany) seen d, d ∈ dedupAux seen cs →
      ∃ l₁ l₂, cs = l₁ ++ d :: l₂ ∧ ∀ z ∈ l₁, nameKey z ≠ nameKey d := by
  intro cs
  induction cs with
  | nil => intro seen d h; simp [dedupAux] at h
  | cons a cs ih =>
    intro seen d hd
    simp only [dedupAux] at hd
    split at hd
    · rename_i ha
      rcases ih seen d hd with ⟨l₁, l₂, heq, hz⟩
      refine ⟨a :: l₁, l₂, by rw [heq]; rfl, ?_⟩
      intro z hz2
      cases List.mem_cons.mp hz2 with
      | inl h =>
        subst h
        have hns := dedupAux_not_seen cs seen d hd
        intro he
        exact hns (he ▸ ha)
      | inr h => exact hz z h
    · rename_i ha
      cases List.mem_cons.mp hd with
      | inl h =>
        subst h
        exact ⟨[], cs, rfl, by intro z hz; cases hz⟩
      | inr h =>
        rcases ih _ d h with ⟨l₁, l₂, heq, hz⟩
        refine ⟨a :: l₁, l₂, by rw [heq]; rfl, ?_⟩
        intro z hz2
        cases List.mem_cons.mp hz2 with
        | inl he =>
          subst he
          have hns := dedupAux_not_seen cs (nameKey z :: seen) d h
          intro he2
          exact hns (he2 ▸ List.mem_cons_self _ _)
        | inr h2 => exact hz z h2

/-- The dedup loop leaves a list untouched when its keys are pairwise
distinct and disjoint from the `seen` set. -/
theorem dedupAux_id_of_distinct :
    ∀ (cs : List ScrapedCompany) seen,
      cs.Pairwise (fun a b => nameKey a ≠ nameKey b) →
      (∀ c ∈ cs, nameKey c ∉ seen) → dedupAux seen cs = cs := by
  intro cs
  induction cs with
  | nil => intro seen _ _; rfl
  | cons a cs ih =>
    intro seen hp hs
    have ha : nameKey a ∉ seen := hs a (List.mem_cons_self _ _)
    simp only [dedupAux, if_neg ha]
    congr 1
    apply ih
    · exact (List.pairwise_cons.mp hp).2
    · intro c hc hmem
      cases List.mem_cons.mp hmem with
      | inl he => exact (List.pairwise_cons.mp hp).1 c hc he.symm
      | inr hs2 => exact hs c (List.mem_cons_of_mem _ hc) hs2

/-- Stable insertion produces a permutation of consing. -/
theorem insertDesc_perm (x : Candidate) :
    ∀ l, List.Perm (insertDesc x l) (x :: l) := by
  intro l
  induction l with
  | nil => simp [insertDesc]
  | cons y ys ih =>
    simp only [insertDesc]
    split
    · exact List.Perm.refl _
    · exact (List.Perm.cons y ih).trans (List.Perm.swap x y ys)

/-- Membership in a stable insertion. -/
theorem mem_insertDesc {z x : Candidate} :
    ∀ {l}, z ∈ insertDesc x l → z = x ∨ z ∈ l := by
  intro l
  induction l with
  | nil => intro h; simpa [insertDesc] using h
  | cons y ys ih =>
    simp only [insertDesc]
    split
    · intro h
      cases List.mem_cons.mp h with
      | inl h1 => exact Or.inl h1
      | inr h1 => exact Or.inr h1
    · intro h
      cases List.mem_cons.mp h with
      | inl h1 => exact Or.inr (h1 ▸ List.mem_cons_self _ _)
      | inr h1 =>
        cases ih h1 with
        | inl h2 => exact Or.inl h2
        | inr h2 => exact Or.inr (List.mem_cons_of_mem _ h2)

/-- Stable insertion preserves the descending-score invariant. -/
theorem insertDesc_pairwise {x : Candidate} :
    ∀ {l}, l.Pairwise (fun a b => score b ≤ score a) →
      (insertDesc x l).Pairwise (fun a b => score b ≤ score a) := by
  intro l
  induction l with
  | nil => intro _; simp [insertDesc]
  | cons y ys ih =>
    intro hp
    rcases List.pairwise_cons.mp hp with ⟨hy, hys⟩
    simp only [insertDesc]
    split
    · rename_i hle
      refine List.Pairwise.cons ?_ hp
      intro b hb
      cases List.mem_cons.mp hb with
      | inl h => exact h ▸ hle
      | inr h => exact Nat.le_trans (hy b h) hle
    · rename_i hgt
      refine List.Pairwise.cons ?_ (ih hys)
      intro b hb
      cases mem_insertDesc hb with
      | inl h => exact h ▸ Nat.le_of_lt (Nat.lt_of_not_le hgt)
      | inr h => exact hy b h

/-- Stability of insertion: restricted to any one score value, inserting
an element of that score puts it in front, and inserting an element of a
different score leaves the restriction unchanged. -/
theorem insertDesc_filter (s : Nat) (x : Candidate) :
    ∀ l, (insertDesc x l).filter (fun c => score c == s) =
      (if score x == s
       then x :: l.filter (fun c => score c == s)
       else l.filter (fun c => score c == s)) := by
  intro l
  induction l with
  | nil => cases hx : (score x == s) <;> simp [insertDesc, List.filter, hx]
  | cons y ys ih =>
    simp only [insertDesc]
    split
    · rename_i hle
      by_cases hx : score x == s
      · simp [List.filter, hx]
      · simp only [List.filter]
        rw [if_neg (by simpa using hx)]
        cases hy : (score y == s) <;> simp [List.filter, hy, hx]
    · rename_i hgt
      by_cases hy : score y == s
      · by_cases hx : score x == s
        · -- score y = s = score x contradicts ¬(score y ≤ score x)
          exact absurd (Nat.le_of_eq ((beq_iff_eq.mp hy).trans
            (beq_iff_eq.mp hx).symm)) hgt
        · simp [List.filter, hy, hx, ih]
      · simp [List.filter, hy, ih]

/-- The stable sort is a permutation of its input. -/
theorem sortDesc_perm : ∀ l, List.Perm (sortDesc l) l := by
  intro l
  induction l with
  | nil => exact List.Perm.refl _
  | cons x xs ih =>
    exact (insertDesc_perm x (sortDesc xs)).trans (List.Perm.cons x ih)

/-- The stable sort output is descending by score. -/
theorem sortDesc_pairwise :
    ∀ l, (sortDesc l).Pairwise (fun a b => score b ≤ score a) := by
  intro l
  induction l with
  | nil => simp [sortDesc]
  | cons x xs ih => exact insertDesc_pairwise ih

/-- Stability: restricted to any one score value the stable sort is the
identity, so original relative order is preserved among equal scores. -/
theorem sortDesc_filter (s : Nat) :
    ∀ l, (sortDesc l).filter (fun c => score c == s) =
      l.filter (fun c => score c == s) := by
  intro l
  induction l with
  | nil => rfl
  | cons x xs ih =>
    show (insertDesc x (sortDesc xs)).filter _ = _
    rw [insertDesc_filter s x (sortDesc xs), ih]
    cases hx : (score x == s) <;> simp [List.filter, hx]

/-- The inner job loop emits exactly as many jobs as its counter. -/
theorem genLoop_length (c : JobCompany) :
    ∀ k jobId r, (genLoop c k jobId r).1.length = k := by
  intro k
  induction k with
  | zero => intro jobId r; rfl
  | succ k ih => intro jobId r; simp [genLoop, ih]

/-- The inner job loop never reads the hiring flag. -/
theorem genLoop_flag (i w : Option String) (h1 h2 : Bool) :
    ∀ k jobId r, genLoop ⟨i, w, h1⟩ k jobId r = genLoop ⟨i, w, h2⟩ k jobId r := by
  intro k
  induction k with
  | zero => intro jobId r; rfl
  | succ k ih => intro jobId r; simp [genLoop, ih]

/-! ## Claims -/

/-- Claim C1 counterexample: "blockchain" is a keyword of the `fintech`
row of the category table, yet classifying the text "blockchain" returns
"ai" (the earlier `ai` row matches, since "ai" is a substring of
"blockchain"), not "fintech" as the claim states. -/
theorem claim1_keyword_counterexample :
    ("fintech", fintech_kws) ∈ categories ∧ "blockchain" ∈ fintech_kws ∧
    categorize_company "blockchain" = "ai" ∧
    categorize_company "blockchain" ≠ "fintech" := by decide

/-- Claim C1 (amended): for every keyword of the category table except
"blockchain" and "sustainable" (which contain the earlier keyword "ai"
and classify as "ai") and "developer" and "devops" (which contain the
earlier keyword "ev" and classify as "climate"), classifying a text equal
to exactly that keyword returns that keyword's category. -/
theorem claim1_keyword_classify :
    ∀ p ∈ categories, ∀ kw ∈ p.2,
      kw ∉ ["blockchain", "sustainable", "developer", "devops"] →
      categorize_company kw = p.1 := by decide

/-- Claim C1 witness: the amended statement applied to the `fintech`
keyword "payment". -/
theorem claim1_keyword_classify_witness :
    categorize_company "payment" = "fintech" :=
  claim1_keyword_classify ("fintech", fintech_kws) (by decide) "payment"
    (by decide) (by decide)

/-- Claim C2: the company classifier always returns one label of the
fixed set, and when the keyword row at index `i` matches the lowered
text while no earlier row matches, the result is exactly row `i`'s
category — the earlier-listed category wins. -/
theorem claim2_classifier_total_first_wins (t : String) :
    categorize_company t ∈
      ["ai", "fintech", "health", "climate", "dev-tools", "other"] ∧
    ∀ i (hi : i < categories.length),
      catMatches (categories.get ⟨i, hi⟩) (pyLower t) = true →
      (∀ j (hj : j < i),
        catMatches (categories.get ⟨j, Nat.lt_trans hj hi⟩) (pyLower t) = false) →
      categorize_company t = (categories.get ⟨i, hi⟩).1 := by
  constructor
  · cases hf : categories.find? (fun p => catMatches p (pyLower t)) with
    | none => simp [categorize_company, hf]
    | some p =>
      have hmem := List.mem_of_find?_eq_some hf
      simp only [categorize_company, hf]
      simp only [categories, List.mem_cons, List.not_mem_nil, or_false] at hmem
      rcases hmem with rfl | rfl | rfl | rfl | rfl
      · decide
      · decide
      · decide
      · decide
      · decide
  · intro i hi hmatch hprev
    have hf := find?_of_first (fun p => catMatches p (pyLower t))
      categories i hi hmatch hprev
    simp [categorize_company, hf]

/-- Claim C2 witness: the first-wins clause applied at index 0 and the
text "ai". -/
theorem claim2_classifier_witness : categorize_company "ai" = "ai" :=
  (claim2_classifier_total_first_wins "ai").2 0 (by decide) (by decide)
    (fun j hj => absurd hj (Nat.not_lt_zero j))

/-- Claim C3: the deduplicated output has pairwise distinct lowered
names, is a sublist of the input (so first-seen order is preserved),
covers every input name, and each kept record is the first input record
bearing its lowered name; the key is `pyLower` of the name — case-folding
only. -/
theorem claim3_dedup_first_occurrences (cs : List ScrapedCompany) :
    (dedup_by_name cs).Pairwise (fun a b => nameKey a ≠ nameKey b) ∧
    (dedup_by_name cs).Sublist cs ∧
    (∀ c ∈ cs, ∃ d ∈ dedup_by_name cs, nameKey d = nameKey c) ∧
    (∀ d ∈ dedup_by_name cs, ∃ l₁ l₂, cs = l₁ ++ d :: l₂ ∧
      ∀ z ∈ l₁, nameKey z ≠ nameKey d) := by
  refine ⟨dedupAux_pairwise cs [], dedupAux_sublist cs [], ?_, ?_⟩
  · intro c hc
    cases dedupAux_covers cs [] c hc with
    | inl h => cases h
    | inr h => exact h
  · intro d hd
    exact dedupAux_first cs [] d hd

/-- Claim C3 witness: in the spec §8 example — "Acme Inc" followed by
"ACME INC" — some kept record carries the lowered name of the second
(duplicate) record. -/
theorem claim3_dedup_witness :
    ∃ d ∈ dedup_by_name [acme1, acme2], nameKey d = nameKey acme2 :=
  (claim3_dedup_first_occurrences [acme1, acme2]).2.2.1 acme2 (by decide)

/-- Claim C4: the deduplicator is idempotent — running it on its own
output returns that output unchanged. -/
theorem claim4_dedup_idempotent (cs : List ScrapedCompany) :
    dedup_by_name (dedup_by_name cs) = dedup_by_name cs :=
  dedupAux_id_of_distinct (dedup_by_name cs) [] (dedupAux_pairwise cs [])
    (fun c _ h => List.not_mem_nil (nameKey c) h)

/-- Claim C5 (spec-modelled ranker): the output has length at most
`limit`; it is the `limit`-prefix of the eligible records stably sorted
by descending score (the sort is a permutation of the eligible records,
is descending, and preserves original relative order among equal scores,
stated as invariance of every equal-score restriction); and every output
record passes the hard filter, so dead/inactive/acquired or nameless
records never appear. -/
theorem claim5_ranker (limit : Nat) (cs : List Candidate) :
    (rank limit cs).length ≤ limit ∧
    rank limit cs = (sortDesc (cs.filter hardFilter)).take limit ∧
    List.Perm (sortDesc (cs.filter hardFilter)) (cs.filter hardFilter) ∧
    (sortDesc (cs.filter hardFilter)).Pairwise (fun a b => score b ≤ score a) ∧
    (∀ s : Nat, (sortDesc (cs.filter hardFilter)).filter (fun c => score c == s) =
      (cs.filter hardFilter).filter (fun c => score c == s)) ∧
    (∀ c ∈ rank limit cs, hardFilter c = true) := by
  refine ⟨?_, rfl, sortDesc_perm _, sortDesc_pairwise _,
    fun s => sortDesc_filter s _, ?_⟩
  · show ((sortDesc (cs.filter hardFilter)).take limit).length ≤ limit
    rw [List.length_take]
    exact Nat.min_le_left _ _
  · intro c hc
    have h1 : c ∈ sortDesc (cs.filter hardFilter) :=
      List.mem_of_mem_take hc
    have h2 : c ∈ cs.filter hardFilter :=
      (sortDesc_perm (cs.filter hardFilter)).mem_iff.mp h1
    exact (List.mem_filter.mp h2).2

/-- Claim C5 witness: the spec §8 end-to-end example — `cAcme` (hiring,
team 150, Series B, active) is eligible, scores 30, and is the sole
output at `limit = 1`. -/
theorem claim5_ranker_witness :
    hardFilter cAcme = true ∧ score cAcme = 30 ∧ rank 1 [cAcme] = [cAcme] :=
  ⟨(claim5_ranker 1 [cAcme]).2.2.2.2.2 cAcme (by decide), by decide, by decide⟩

/-- Claim C6: when the unique-company list is empty neither the database
save nor the JSON export runs, so the output state — including any
previously written output — is unchanged; when it is non-empty the rows
are appended to the database and the JSON file is overwritten with
exactly the list. -/
theorem claim6_no_output_on_empty (unique : List ScrapedCompany)
    (st : OutputState) :
    (unique = [] → main_outputs unique st = st) ∧
    (unique ≠ [] →
      (main_outputs unique st).db = st.db ++ unique ∧
      (main_outputs unique st).json = some unique) := by
  constructor
  · intro h
    subst h
    rfl
  · intro h
    have he : unique.isEmpty = false := by
      cases unique with
      | nil => exact absurd rfl h
      | cons a l => rfl
    simp [main_outputs, he, export_to_json, save_to_database]

/-- Claim C6 witness: the empty run leaves the initial state unchanged;
a one-record run appends it to the database and writes the JSON file. -/
theorem claim6_no_output_witness :
    main_outputs [] st0 = st0 ∧
    (main_outputs [acme1] st0).db = st0.db ++ [acme1] ∧
    (main_outputs [acme1] st0).json = some [acme1] :=
  ⟨(claim6_no_output_on_empty [] st0).1 rfl,
   ((claim6_no_output_on_empty [acme1] st0).2 (by decide)).1,
   ((claim6_no_output_on_empty [acme1] st0).2 (by decide)).2⟩

/-- Claim C7: both classifiers are total Lean functions (so never
raise), and on any text containing no keyword — the empty string in
particular — the company classifier returns the default "other" and the
job-title classifier the default "engineering". -/
theorem claim7_classifier_defaults (t u : String)
    (ht : noCompanyKw t = true) (hu : noDeptKw u = true) :
    categorize_company t = "other" ∧ categorize_department u = "engineering" := by
  have ht2 : ∀ kw ∈ all_company_kws, pyIn kw (pyLower t) = false := by
    intro kw hkw
    simpa using List.all_eq_true.mp ht kw hkw
  have hu2 : ∀ kw ∈ all_dept_kws, pyIn kw (pyLower u) = false := by
    intro kw hkw
    simpa using List.all_eq_true.mp hu kw hkw
  constructor
  · have hnone : categories.find? (fun p => catMatches p (pyLower t)) = none := by
      rw [List.find?_eq_none]
      intro p hp hmatch
      rcases List.any_eq_true.mp hmatch with ⟨kw, hkw, hin⟩
      have hall : kw ∈ all_company_kws := by
        simp only [categories, List.mem_cons, List.not_mem_nil, or_false] at hp
        rcases hp with rfl | rfl | rfl | rfl | rfl <;>
          simp only [all_company_kws, List.mem_append] <;> tauto
      rw [ht2 kw hall] at hin
      cases hin
    simp [categorize_company, hnone]
  · have hgrp : ∀ kws, (∀ kw ∈ kws, kw ∈ all_dept_kws) →
        anyIn kws (pyLower u) = false := by
      intro kws hsub
      rw [anyIn, List.any_eq_false]
      intro kw hkw hin
      rw [hu2 kw (hsub kw hkw)] at hin
      cases hin
    have h1 := hgrp eng_kws (by
      intro kw h; simp only [all_dept_kws, List.mem_append]; tauto)
    have h2 := hgrp product_kws (by
      intro kw h; simp only [all_dept_kws, List.mem_append]; tauto)
    have h3 := hgrp design_kws (by
      intro kw h; simp only [all_dept_kws, List.mem_append]; tauto)
    have h4 := hgrp sales_kws (by
      intro kw h; simp only [all_dept_kws, List.mem_append]; tauto)
    have h5 := hgrp marketing_kws (by
      intro kw h; simp only [all_dept_kws, List.mem_append]; tauto)
    have h6 := hgrp ops_kws (by
      intro kw h; simp only [all_dept_kws, List.mem_append]; tauto)
    simp [categorize_department, h1, h2, h3, h4, h5, h6]

/-- Claim C7 witness: empty text yields both defaults. -/
theorem claim7_classifier_defaults_witness :
    categorize_company "" = "other" ∧ categorize_department "" = "engineering" :=
  claim7_classifier_defaults "" "" (by decide) (by decide)

/-- Claim C8: with the pseudo-random source made an explicit seeded
generator (the spec's design note), two runs of the job generator from
equal seeds over equal company lists produce identical job lists. -/
theorem claim8_generator_deterministic (r1 r2 : Rng)
    (cs1 cs2 : List JobCompany) (hr : r1 = r2) (hc : cs1 = cs2) :
    generate_sample_jobs r1 cs1 = generate_sample_jobs r2 cs2 := by
  subst hr
  subst hc
  rfl

/-- Claim C8 witness: two runs from seed 7 over the same one-company
list coincide. -/
theorem claim8_generator_deterministic_witness :
    generate_sample_jobs ⟨7⟩ [coHiring] = generate_sample_jobs ⟨7⟩ [coHiring] :=
  claim8_generator_deterministic ⟨7⟩ ⟨7⟩ [coHiring] [coHiring] rfl rfl

/-- Claim C9 counterexample: the generator never reads the hiring flag —
from seed 1, the runs over the actively-hiring company and over the same
company with the flag cleared produce identical job lists, so
actively-hiring companies do not get more jobs than others. -/
theorem claim9_count_counterexample :
    coHiring.isHiring = true ∧ coQuiet.isHiring = false ∧
    generate_sample_jobs ⟨1⟩ [coHiring] = generate_sample_jobs ⟨1⟩ [coQuiet] ∧
    ¬ ((generate_sample_jobs ⟨1⟩ [coHiring]).length >
        (generate_sample_jobs ⟨1⟩ [coQuiet]).length) := by decide

/-- Claim C9 (amended): every company gets between 2 and 4 jobs
inclusive, but the count is independent of the hiring flag — the
per-company step is unchanged when the flag is flipped, so
actively-hiring companies do not receive more jobs. -/
theorem claim9_count_bounds (c : JobCompany) (jobId : Nat) (r : Rng) :
    2 ≤ (companyJobs c jobId r).1.length ∧
    (companyJobs c jobId r).1.length ≤ 4 ∧
    companyJobs c jobId r =
      companyJobs { c with isHiring := !c.isHiring } jobId r := by
  obtain ⟨i, w, h⟩ := c
  have hlen : (companyJobs ⟨i, w, h⟩ jobId r).1.length = (randint 2 4 r).1 := by
    simp [companyJobs, genLoop_length]
  have hr : (randint 2 4 r).1 = 2 + (rngNext r).1 % 3 := rfl
  refine ⟨?_, ?_, ?_⟩
  · rw [hlen, hr]; omega
  · rw [hlen, hr]; omega
  · exact genLoop_flag i w h (!h) _ _ _

/-- Claim C10: `parse_round_type` never returns "Pre-Seed" — "Seed" is
checked first and "seed" is a substring of "pre-seed", so any text that
would match the "Pre-Seed" entry already matched "Seed"; such texts are
labeled "Seed". -/
theorem claim10_preseed_unreachable (t : String) :
    parse_round_type t ≠ "Pre-Seed" ∧
    (pyIn "pre-seed" (pyLower t) = true → parse_round_type t = "Seed") := by
  have key : pyIn (pyLower "Pre-Seed") (pyLower t) = true →
      pyIn (pyLower "Seed") (pyLower t) = true := by
    intro h
    rw [show pyLower "Pre-Seed" = "pre-seed" from by decide] at h
    rw [show pyLower "Seed" = "seed" from by decide]
    exact subB_trans (a := "seed".data) (b := "pre-seed".data) (by decide) h
  have hfirst : pyIn (pyLower "Seed") (pyLower t) = true →
      rounds.find? (fun r => pyIn (pyLower r) (pyLower t)) = some "Seed" := by
    intro hs
    simp only [rounds]
    exact List.find?_cons_of_pos _ hs
  constructor
  · intro hcontra
    unfold parse_round_type at hcontra
    cases hf : rounds.find? (fun r => pyIn (pyLower r) (pyLower t)) with
    | none =>
      rw [hf] at hcontra
      exact absurd hcontra (by decide)
    | some r =>
      rw [hf] at hcontra
      simp only at hcontra
      subst hcontra
      have hp : pyIn (pyLower "Pre-Seed") (pyLower t) = true := by
        have hps := List.find?_some hf
        simpa using hps
      rw [hfirst (key hp)] at hf
      exact absurd (Option.some.inj hf) (by decide)
  · intro h
    have hs : pyIn (pyLower "Seed") (pyLower t) = true := by
      rw [show pyLower "Seed" = "seed" from by decide]
      exact subB_trans (a := "seed".data) (b := "pre-seed".data) (by decide) h
    simp [parse_round_type, hfirst hs]

/-- Claim C10 witness: a text containing "pre-seed" is labeled "Seed". -/
theorem claim10_preseed_witness :
    parse_round_type "closed a Pre-Seed round" = "Seed" :=
  (claim10_preseed_unreachable "closed a Pre-Seed round").2 (by decide)
